import Mathlib

/-!
Verification development for the stablecoin-globe data-serving cache layer.

The definitions below are a shallow embedding of the cache/coalescing core of
the repository:

* the in-process request coalescer `dedup` together with its module-level
  `inflight` map (src/src/components/Globe.tsx, `dedup`), modelled as a small
  operational semantics over explicit event traces in the single-threaded
  cooperative scheduling model of a JS isolate: a `call` event runs the
  synchronous body of `dedup` (check, invoke, register — no suspension point
  in between), a `settleOp` event runs the then/catch handler attached to the
  underlying operation (which deletes the table entry and resolves the shared
  promise), and a `deliver` event is the event loop handing the settled shared
  promise's outcome to one waiting caller;
* the Cloudflare edge-cache wrappers `cfCacheMatch` / `cfCachePut`
  (src/src/components/Globe.tsx), modelled against an explicit store-behavior
  oracle so that every store-level failure path of the code is a case;
* the timestamp helpers `snapToHour` and `ttlForRange`, together with an
  executable model of the JS `Date` codec for strings of the shape
  "YYYY-MM-DD HH:MM:SS" (UTC, whole seconds): `parseTs` models
  `new Date(s.replace(" ", "T") + "Z").getTime()` and `fmtTs` models
  `d.toISOString().replace("T", " ").slice(0, 19)`;
* the canonical fingerprint `cacheKey`;
* the per-route control flow of the flows, bridges, wallet and prefetch API
  routes, as functions of explicit oracles for the edge-cache lookup result
  and the upstream operation's outcome.  `NextResponse.json(x)` is modelled
  as a 200 response with body `Except.ok x`, and
  `NextResponse.json(err-object, status)` as body `Except.error message`.
-/

/-! ## Association lists with JS `Map` semantics

The coalescer's `inflight` table and the edge cache are JS `Map`-like key/value
stores.  `aget`/`aset`/`adel` model `Map.get`/`Map.set`/`Map.delete` on an
insertion-ordered association list: `set` of an existing key replaces the value
in place, `set` of a new key appends. -/

def aget {κ β : Type} [BEq κ] (m : List (κ × β)) (k : κ) : Option β :=
  (m.find? (fun p => p.1 == k)).map (fun p => p.2)

def aset {κ β : Type} [BEq κ] (m : List (κ × β)) (k : κ) (v : β) : List (κ × β) :=
  if m.any (fun p => p.1 == k) then m.map (fun p => if p.1 == k then (k, v) else p)
  else m ++ [(k, v)]

def adel {κ β : Type} [BEq κ] (m : List (κ × β)) (k : κ) : List (κ × β) :=
  m.filter (fun p => !(p.1 == k))

/-! ## The request coalescer (`dedup` in src/src/components/Globe.tsx)

Source:

    const inflight = new Map<string, Promise<unknown>>();
    export async function dedup<T>(key, fetcher) {
      const existing = inflight.get(key);
      if (existing) { return existing as Promise<T>; }
      const promise = fetcher().then((result) => {
        inflight.delete(key); return result;
      }).catch((err) => {
        inflight.delete(key); throw err;
      });
      inflight.set(key, promise);
      return promise;
    }

Events of the cooperative model.  Each invocation of `fetcher` gets a fresh
generation number (`CState.gen` counts invocations); `invokedFor` is the log of
(fingerprint, generation) invocations, `joined` maps a caller to the generation
whose shared promise it awaits, `settledOut` records the outcome of each
settled generation (recorded by the then/catch handler, in the same microtask
that deletes the table entry), and `delivered` records the outcome each caller
has received from the event loop. -/

inductive Ev (α : Type) where
  | call (k : String) (c : Nat)
  | settleOp (g : Nat) (o : Except String α)
  | deliver (c : Nat)

structure CState (α : Type) where
  table : List (String × Nat)
  gen : Nat
  invokedFor : List (String × Nat)
  joined : List (Nat × Nat)
  settledOut : List (Nat × Except String α)
  delivered : List (Nat × Except String α)

def initState (α : Type) : CState α := ⟨[], 0, [], [], [], []⟩

/-- One event of the cooperative schedule.  `call k c`: caller `c` runs the
synchronous body of `dedup k`: the `inflight.get` check, and — when the check
misses — the invocation of `fetcher()` followed immediately by
`inflight.set(key, promise)`, with no suspension point in between.  A caller
that already called is a no-op (each caller calls once).  `settleOp g o`: the
underlying operation of generation `g` settles with outcome `o`; its
then/catch handler runs `inflight.delete(key)` and resolves the shared promise
(recorded in `settledOut`) in the same step.  `deliver c`: the event loop
hands the settled outcome of the promise caller `c` awaits to `c`. -/
def stepEv {α : Type} (s : CState α) (e : Ev α) : CState α :=
  match e with
  | .call k c =>
    if s.joined.any (fun p => p.1 == c) then s
    else
      match aget s.table k with
      | some g => { s with joined := (c, g) :: s.joined }
      | none =>
        { s with
          table := aset s.table k s.gen
          gen := s.gen + 1
          invokedFor := s.invokedFor ++ [(k, s.gen)]
          joined := (c, s.gen) :: s.joined }
  | .settleOp g o =>
    match s.invokedFor.find? (fun p => p.2 == g) with
    | some p =>
      if s.settledOut.any (fun q => q.1 == g) then s
      else { s with table := adel s.table p.1, settledOut := (g, o) :: s.settledOut }
    | none => s
  | .deliver c =>
    if s.delivered.any (fun d => d.1 == c) then s
    else
      match aget s.joined c with
      | some g =>
        match aget s.settledOut g with
        | some o => { s with delivered := (c, o) :: s.delivered }
        | none => s
      | none => s

def runEvents {α : Type} (s : CState α) (evs : List (Ev α)) : CState α :=
  evs.foldl stepEv s

/-- Number of times the expensive operation was invoked for fingerprint `k`. -/
def countInvocations {α : Type} (s : CState α) (k : String) : Nat :=
  (s.invokedFor.filter (fun p => p.1 == k)).length

/-- Number of in-flight table entries currently registered under fingerprint `k`. -/
def countKeyEntries {α : Type} (s : CState α) (k : String) : Nat :=
  (s.table.filter (fun p => p.1 == k)).length

/-- Trace of `N` distinct callers invoking `dedup k` before the operation settles. -/
def callsTrace (α : Type) (N : Nat) (k : String) : List (Ev α) :=
  (List.range N).map (fun c => Ev.call k c)

/-- Full scenario: `N` concurrent callers, then the single started operation
(generation 0) settles with outcome `o`, then the event loop delivers to every
caller. -/
def dedupTrace (α : Type) (N : Nat) (k : String) (o : Except String α) : List (Ev α) :=
  callsTrace α N k ++ [Ev.settleOp 0 o] ++ (List.range N).map Ev.deliver

/-- Callers `N-1, …, 0` all joined to generation `g` (list shape produced by the
call phase, most recent caller first). -/
def joinersTo (N g : Nat) : List (Nat × Nat) :=
  (List.range N).reverse.map (fun c => (c, g))

/-- Outcome `o` delivered to callers `N-1, …, 0`. -/
def deliveredTo {α : Type} (N : Nat) (o : Except String α) : List (Nat × Except String α) :=
  (List.range N).reverse.map (fun c => (c, o))

/-- Well-formedness of a coalescer state, maintained by every event: table
entries point at invoked, not-yet-settled generations; generations are
allocated at most once and only below `gen`; settled generations were invoked;
a caller joins at most one generation; a delivered outcome is the settled
outcome of the generation its caller joined. -/
def GoodState {α : Type} (s : CState α) : Prop :=
  (∀ p ∈ s.table, p ∈ s.invokedFor) ∧
  (∀ p ∈ s.table, ∀ o : Except String α, (p.2, o) ∉ s.settledOut) ∧
  (∀ p ∈ s.invokedFor, p.2 < s.gen) ∧
  (∀ p ∈ s.invokedFor, ∀ q ∈ s.invokedFor, p.2 = q.2 → p = q) ∧
  (∀ q ∈ s.settledOut, ∃ k, (k, q.1) ∈ s.invokedFor) ∧
  (∀ p ∈ s.joined, ∀ q ∈ s.joined, p.1 = q.1 → p = q) ∧
  (∀ d ∈ s.delivered, ∃ g, (d.1, g) ∈ s.joined ∧ (g, d.2) ∈ s.settledOut)

/-! ## The edge-cache wrappers (`cfCacheMatch` / `cfCachePut`)

Source (src/src/components/Globe.tsx):

    async function getCfCache() {
      try { return (caches as ...).default ?? null; } catch { return null; }
    }
    export async function cfCacheMatch(url) {
      const cache = await getCfCache();
      if (!cache) return null;
      try {
        const res = await cache.match(new Request(url));
        if (!res) return null;
        return res.json();
      } catch { return null; }
    }
    export async function cfCachePut(url, data, ttlSec) {
      const cache = await getCfCache();
      if (!cache) return;
      try {
        const res = new Response(JSON.stringify(data), { headers: ... });
        await cache.put(new Request(url), res);
      } catch { }
    }

The store-behavior oracle enumerates the store-level outcomes one lookup can
meet: the store unavailable (`caches.default` missing or throwing), the
`cache.match` call rejecting, a miss, or a hit whose `res.json()` body read
either parses or fails.  Note the JS semantics of `return res.json()` inside
`try`: the pending promise is returned without `await`, so the function has
already left the `try` block when `res.json()` settles, and a rejection of the
body read is NOT caught by the `catch` — it propagates to the caller.  The
model returns `Except.error ()` exactly on that path. -/

inductive JsonRead (α : Type) where
  | parses (v : α)
  | fails

inductive MatchStep (α : Type) where
  | throws
  | miss
  | hit (body : JsonRead α)

inductive StoreEnv (α : Type) where
  | noStore
  | available (m : MatchStep α)

/-- Model of `cfCacheMatch` as a function of the store behavior it meets.
`Except.ok (some v)` = resolves with cached data, `Except.ok none` = resolves
with `null`, `Except.error ()` = the returned promise rejects. -/
def cfCacheMatch {α : Type} (env : StoreEnv α) : Except Unit (Option α) :=
  match env with
  | .noStore => .ok none
  | .available .throws => .ok none
  | .available .miss => .ok none
  | .available (.hit (.parses v)) => .ok (some v)
  | .available (.hit .fails) => .error ()

inductive PutStep where
  | noStore
  | throwsOnPut
  | stores

/-- Model of `cfCachePut` as a function of the store behavior it meets.
`Except.ok b` = resolves, with `b` recording whether the value was actually
stored; `Except.error ()` (never produced) would be a rejection escaping to
the caller. -/
def cfCachePut (env : PutStep) : Except Unit Bool :=
  match env with
  | .noStore => .ok false
  | .throwsOnPut => .ok false
  | .stores => .ok true

/-! ## The timestamp codec

The routes exchange naive UTC timestamps "YYYY-MM-DD HH:MM:SS".  `parseTs`
models `new Date(s.replace(" ", "T") + "Z").getTime()` for such strings
(`none` models an invalid date, whose `NaN` arithmetic the callers are modelled
against explicitly), and `fmtTs` models
`d.toISOString().replace("T", " ").slice(0, 19)` for epoch-milliseconds values
whose year has at most four digits.  Both use the standard civil-calendar
day-numbering algorithm (proleptic Gregorian, days counted from 1970-01-01). -/

def isLeap (y : Int) : Bool := (y % 4 == 0 && y % 100 != 0) || y % 400 == 0

def daysInMonth (y mo : Int) : Int :=
  if mo = 2 then (if isLeap y then 29 else 28)
  else if mo = 4 ∨ mo = 6 ∨ mo = 9 ∨ mo = 11 then 30
  else 31

/-- Days since 1970-01-01 of the civil date (y, mo, d). -/
def daysFromCivil (y mo d : Int) : Int :=
  let y' := if mo ≤ 2 then y - 1 else y
  let era := y' / 400
  let yoe := y' - era * 400
  let mp := if mo ≤ 2 then mo + 9 else mo - 3
  let doy := (153 * mp + 2) / 5 + d - 1
  let doe := yoe * 365 + yoe / 4 - yoe / 100 + doy
  era * 146097 + doe - 719468

/-- Civil date (y, mo, d) of a number of days since 1970-01-01. -/
def civilFromDays (z0 : Int) : Int × Int × Int :=
  let z := z0 + 719468
  let era := z / 146097
  let doe := z - era * 146097
  let yoe := (doe - doe / 1460 + doe / 36524 - doe / 146096) / 365
  let y := yoe + era * 400
  let doy := doe - (365 * yoe + yoe / 4 - yoe / 100)
  let mp := (5 * doy + 2) / 153
  let d := doy - (153 * mp + 2) / 5 + 1
  let mo := if mp < 10 then mp + 3 else mp - 9
  (if mo ≤ 2 then y + 1 else y, mo, d)

def dVal (c : Char) : Int := (c.toNat : Int) - 48

/-- Model of `new Date(s.replace(" ", "T") + "Z").getTime()` restricted to the
19-character shape "YYYY-MM-DD HH:MM:SS"; `none` stands for an invalid date
(`NaN`). -/
def parseTs (s : String) : Option Int :=
  match s.data with
  | [a, b, c, d, k1, e, f, k2, g, h, k3, i, j, k4, l, m, k5, n, o] =>
    if a.isDigit && b.isDigit && c.isDigit && d.isDigit && (k1 == '-') &&
       e.isDigit && f.isDigit && (k2 == '-') && g.isDigit && h.isDigit &&
       (k3 == ' ') && i.isDigit && j.isDigit && (k4 == ':') && l.isDigit &&
       m.isDigit && (k5 == ':') && n.isDigit && o.isDigit then
      let y := 1000 * dVal a + 100 * dVal b + 10 * dVal c + dVal d
      let mo := 10 * dVal e + dVal f
      let da := 10 * dVal g + dVal h
      let hh := 10 * dVal i + dVal j
      let mi := 10 * dVal l + dVal m
      let ss := 10 * dVal n + dVal o
      if 1 ≤ mo ∧ mo ≤ 12 ∧ 1 ≤ da ∧ da ≤ daysInMonth y mo ∧ hh ≤ 23 ∧ mi ≤ 59 ∧ ss ≤ 59 then
        some (86400000 * daysFromCivil y mo da + 3600000 * hh + 60000 * mi + 1000 * ss)
      else none
    else none
  | _ => none

def digitChar (n : Nat) : Char := Char.ofNat (48 + n)

def pad2 (n : Nat) : String := ⟨[digitChar (n / 10 % 10), digitChar (n % 10)]⟩

def pad4 (n : Nat) : String :=
  ⟨[digitChar (n / 1000 % 10), digitChar (n / 100 % 10), digitChar (n / 10 % 10),
    digitChar (n % 10)]⟩

/-- Model of `d.toISOString().replace("T", " ").slice(0, 19)` for a `Date`
holding `t` epoch milliseconds (faithful for years 0000–9999, i.e.
-62167219200000 ≤ t < 253402300800000; `toISOString` switches to the expanded
six-digit year form outside that range). -/
def fmtTs (t : Int) : String :=
  let days := t / 86400000
  let rem := t % 86400000
  let hh := rem / 3600000
  let mi := rem % 3600000 / 60000
  let ss := rem % 60000 / 1000
  let ymd := civilFromDays days
  pad4 ymd.1.toNat ++ "-" ++ pad2 ymd.2.1.toNat ++ "-" ++ pad2 ymd.2.2.toNat ++ " " ++
    pad2 hh.toNat ++ ":" ++ pad2 mi.toNat ++ ":" ++ pad2 ss.toNat

/-- Source: `export function snapToHour(dateStr) { return dateStr.slice(0, 13) + ":00:00"; }`
(`slice` on the UTF-16 units is `take` on the characters for these ASCII
strings). -/
def snapToHour (s : String) : String := ⟨s.data.take 13⟩ ++ ":00:00"

/-- Model of `Math.floor(now.getTime() / (3600 * 1000)) * 3600 * 1000`. -/
def hourFloorMs (t : Int) : Int := t / 3600000 * 3600000

/-! ## TTL policy (`ttlForRange` in src/src/components/Globe.tsx)

Source:

    export function ttlForRange(startDate, endDate) {
      const startMs = new Date(startDate.replace(" ", "T") + "Z").getTime();
      const endMs = new Date(endDate.replace(" ", "T") + "Z").getTime();
      const spanHours = (endMs - startMs) / (3600 * 1000);
      if (spanHours >= 7 * 24) return 6 * 60 * 60 * 1000;  // 7d+: cache 6 hours
      if (spanHours >= 24) return 2 * 60 * 60 * 1000;      // 24h+: cache 2 hours
      return 1 * 60 * 60 * 1000;                           // <24h: cache 1 hour
    }

The float division and comparisons are exact at these magnitudes, so
`spanHours` is modelled in `ℚ`.  When either date is invalid, `spanHours` is
`NaN` and both `>=` comparisons are false, so the last branch is taken; the
`none` cases model that. -/
def ttlForRange (startDate endDate : String) : Int :=
  match parseTs startDate, parseTs endDate with
  | some a, some b =>
    let spanHours : ℚ := ((b - a : Int) : ℚ) / (3600 * 1000)
    if 7 * 24 ≤ spanHours then 6 * 60 * 60 * 1000
    else if 24 ≤ spanHours then 2 * 60 * 60 * 1000
    else 1 * 60 * 60 * 1000
  | _, _ => 1 * 60 * 60 * 1000

/-! ## The canonical fingerprint (`cacheKey`)

Source:

    export function cacheKey(queryId, params) {
      const sorted = Object.entries(params).sort(([a], [b]) => a.localeCompare(b));
      return queryId + ":" + sorted.map(([k, v]) => k + "=" + v).join("&");
    }

`params` is a JS object, i.e. an insertion-ordered set of entries with
pairwise-distinct keys, modelled as such a list.  `localeCompare` on the ASCII
parameter names used by the routes is the code-unit order, modelled by
`String.le`; `Array.prototype.sort` is a stable sort, modelled by
`List.mergeSort`. -/
def cacheKey (queryId : String) (params : List (String × String)) : String :=
  let sorted := params.mergeSort (fun p q => decide (p.1 ≤ q.1))
  queryId ++ ":" ++ String.intercalate "&" (sorted.map (fun p => p.1 ++ "=" ++ p.2))

/-! ## Route embeddings

Oracles: `cached` is the value `cfCacheMatch(cacheUrl)` resolved with (the
normal-operation view of the store: `none` = miss), and `upstream` the outcome
of the composed `dedup(key, () => runQueryAndWait(...))` operation —
`Except.error e` covers an upstream failure or timeout rejection with message
`e`.  A route's result records the HTTP status, the body, every
`cfCachePut(url, value, ttlSec)` invocation, whether the upstream operation
was invoked, and every `cfCacheMatch(url)` invocation. -/

/-- Model of JS `x || d` for an optional string parameter: `null` and the empty
string are falsy. -/
def jsOr (v : Option String) (d : String) : String :=
  match v with
  | some s => if s.length = 0 then d else s
  | none => d

/-- Model of `String.prototype.toLowerCase` for the ASCII strings in play. -/
def toLowerCase (s : String) : String := ⟨s.data.map Char.toLower⟩

def FLOWS_QUERY_ID : String := "Gfa6Z0NU15RsYA4Hp3vB"
def BRIDGE_QUERY_ID : String := "i812m0VJTKobVxsYvdHB"

/-- Parameter normalization of the flows route (src/unnamed/part_003 lines
23-34): default window end = now snapped to hour, start = end − 24 h, both the
default and any explicit input passed through `snapToHour`. -/
def flowsParams (sd ed : Option String) (now : Int) : String × String :=
  let endSnapped := hourFloorMs now
  let startSnapped := endSnapped - 24 * 3600000
  let defaultEnd := fmtTs endSnapped
  let defaultStart := fmtTs startSnapped
  (snapToHour (jsOr sd defaultStart), snapToHour (jsOr ed defaultEnd))

/-- Parameter normalization of the bridges route
(src/src/app/api/bridges/route.ts lines 73-83): same shape, but the default
window is end − 1 h. -/
def bridgesParams (sd ed : Option String) (now : Int) : String × String :=
  let endSnapped := hourFloorMs now
  let startSnapped := endSnapped - 3600000
  let defaultEnd := fmtTs endSnapped
  let defaultStart := fmtTs startSnapped
  (snapToHour (jsOr sd defaultStart), snapToHour (jsOr ed defaultEnd))

def flowsCacheUrl (ps : String × String) : String :=
  "https://cache.internal/api/flows?start_date=" ++ ps.1 ++ "&end_date=" ++ ps.2

def bridgesCacheUrl (ps : String × String) : String :=
  "https://cache.internal/api/bridges?start_date=" ++ ps.1 ++ "&end_date=" ++ ps.2

structure RouteOut (α : Type) where
  status : Nat
  body : Except String α
  putCalls : List (String × α × Int)
  upstreamCalled : Bool
  matchCalls : List String

/-- Control flow of the flows route `GET` (src/unnamed/part_003): missing API
key → 500; edge-cache hit → 200 with the cached value; miss → coalesced
upstream call, whose success is written through `cfCachePut` with
`ttlSec = Math.round(ttlForRange(...) / 1000)` (exact here: every branch of
`ttlForRange` is a multiple of 1000) and returned, and whose rejection is a
500 error body. -/
def flowsGET {α : Type} (apiKey : Option String) (sd ed : Option String) (now : Int)
    (cached : Option α) (upstream : Except String α) : RouteOut α :=
  match apiKey with
  | none => ⟨500, .error "Missing ALLIUM_API_KEY", [], false, []⟩
  | some _ =>
    let ps := flowsParams sd ed now
    let cacheUrl := flowsCacheUrl ps
    match cached with
    | some v => ⟨200, .ok v, [], false, [cacheUrl]⟩
    | none =>
      let ttlSec := ttlForRange ps.1 ps.2 / 1000
      match upstream with
      | .ok v => ⟨200, .ok v, [(cacheUrl, v, ttlSec)], true, [cacheUrl]⟩
      | .error e => ⟨500, .error e, [], true, [cacheUrl]⟩

/-- Control flow of the bridges route `GET`
(src/src/app/api/bridges/route.ts lines 59-113), identical to the flows route
up to query id, cache URL and the 1-hour default window. -/
def bridgesGET {α : Type} (apiKey : Option String) (sd ed : Option String) (now : Int)
    (cached : Option α) (upstream : Except String α) : RouteOut α :=
  match apiKey with
  | none => ⟨500, .error "Missing ALLIUM_API_KEY", [], false, []⟩
  | some _ =>
    let ps := bridgesParams sd ed now
    let cacheUrl := bridgesCacheUrl ps
    match cached with
    | some v => ⟨200, .ok v, [], false, [cacheUrl]⟩
    | none =>
      let ttlSec := ttlForRange ps.1 ps.2 / 1000
      match upstream with
      | .ok v => ⟨200, .ok v, [(cacheUrl, v, ttlSec)], true, [cacheUrl]⟩
      | .error e => ⟨500, .error e, [], true, [cacheUrl]⟩

/-! ## The wallet route (src/src/app/api/wallet/route.ts)

A row of the upstream result, with the fields the route reads (the code
accepts each field in upper or lower case; one field models both spellings).
`result?.data || result || []` together with the `Array.isArray` check
extracts a list of rows from the upstream payload; a payload that is not an
array (after the fallbacks) behaves as the empty list, so the upstream success
value is modelled as the extracted row list. -/

structure Row where
  counterparty_address : String
  direction : String
  tx_count : Nat
  category : String
  project : String
  name : String
  first_seen : Option String
deriving DecidableEq

structure EntityLabel where
  chain : String
  address : String
  category : String
  project : String
  name : String
deriving DecidableEq

structure EnrichedCounterparty where
  address : String
  chain : String
  entity : EntityLabel
  totalSent : Nat
  totalReceived : Nat
  transferCount : Nat
  tokens : List String
  firstSeen : Option String
deriving DecidableEq

structure WalletData where
  address : String
  chain : String
  transactions : List Unit
  counterparties : List EnrichedCounterparty
deriving DecidableEq

/-- Accumulator value of the route's `cpMap` (a JS `Map`, modelled with the
`aset` insertion-order semantics; `tokens` is a JS `Set`, insertion-ordered
and deduplicated). -/
structure CpAcc where
  entity : EntityLabel
  sent : Nat
  received : Nat
  tokens : List String
  firstSeen : Option String
deriving DecidableEq

def addToken (tokens : List String) (t : String) : List String :=
  if tokens.contains t then tokens else tokens ++ [t]

/-- One iteration of the aggregation loop (wallet route lines 75-108).
Self-references are skipped; `direction === "sent"` adds to `sent`, anything
else to `received`; the `category` joins the token set; `first_seen` keeps the
smallest truthy value seen (JS `firstSeen && (!existing.firstSeen ||
firstSeen < existing.firstSeen)`, where the empty string is falsy). -/
def rowFold (address chain : String) (m : List (String × CpAcc)) (row : Row) :
    List (String × CpAcc) :=
  let addr := toLowerCase row.counterparty_address
  if addr == toLowerCase address then m
  else
    let existing := (aget m addr).getD
      ⟨⟨chain, addr, row.category, row.project, row.name⟩, 0, 0, [], none⟩
    let acc1 :=
      if row.direction == "sent" then { existing with sent := existing.sent + row.tx_count }
      else { existing with received := existing.received + row.tx_count }
    let acc2 := { acc1 with tokens := addToken acc1.tokens row.category }
    let acc3 := { acc2 with firstSeen :=
      match row.first_seen, acc2.firstSeen with
      | some fs, none => if fs.length = 0 then none else some fs
      | some fs, some ef => if fs.length ≠ 0 ∧ fs < ef then some fs else some ef
      | none, ef => ef }
    aset m addr acc3

/-- Aggregation of the upstream rows into the sorted counterparty list
(wallet route lines 63-121).  `sort((a, b) => b.transferCount - a.transferCount)`
is a stable descending sort, modelled by `mergeSort` with
`b.transferCount ≤ a.transferCount`. -/
def processRows (address chain : String) (rows : List Row) : List EnrichedCounterparty :=
  let cpMap := rows.foldl (rowFold address chain) []
  (cpMap.map (fun p =>
    ({ address := p.1, chain := chain, entity := p.2.entity,
       totalSent := p.2.sent, totalReceived := p.2.received,
       transferCount := p.2.sent + p.2.received, tokens := p.2.tokens,
       firstSeen := p.2.firstSeen } : EnrichedCounterparty))).mergeSort
    (fun a b => decide (b.transferCount ≤ a.transferCount))

def walletCacheUrl (address chain : String) : String :=
  "https://cache.internal/api/wallet?address=" ++ toLowerCase address ++ "&chain=" ++ chain

instance {ε α : Type} [DecidableEq ε] [DecidableEq α] : DecidableEq (Except ε α) :=
  fun a b =>
    match a, b with
    | .ok x, .ok y => if h : x = y then .isTrue (by rw [h]) else .isFalse (by simp [h])
    | .error x, .error y => if h : x = y then .isTrue (by rw [h]) else .isFalse (by simp [h])
    | .ok _, .error _ => .isFalse (by simp)
    | .error _, .ok _ => .isFalse (by simp)

structure WalletOut where
  status : Nat
  body : Except String WalletData
  putCalls : List (String × WalletData × Int)
  upstreamCalled : Bool
  matchCalls : List String
deriving DecidableEq

/-- Control flow of the wallet route `GET`: missing API key → 500; missing (or
empty, JS falsy) `address` → 400, before any cache access or upstream call;
edge-cache hit → 200 with the cached processed view; miss → coalesced upstream
call; zero extracted rows → 200 with empty `transactions`/`counterparties` and
no cache write; otherwise the processed response is written through
`cfCachePut(cacheUrl, response, 3600)` and returned. -/
def walletGET (apiKey : Option String) (address : Option String)
    (chainParam : Option String) (cached : Option WalletData)
    (upstream : Except String (List Row)) : WalletOut :=
  match apiKey with
  | none => ⟨500, .error "Missing ALLIUM_API_KEY", [], false, []⟩
  | some _ =>
    let chain := jsOr chainParam "ethereum"
    let addrOpt : Option String :=
      match address with
      | some a => if a.length = 0 then none else some a
      | none => none
    match addrOpt with
    | none => ⟨400, .error "Missing address parameter", [], false, []⟩
    | some a =>
      let cacheUrl := walletCacheUrl a chain
      match cached with
      | some w => ⟨200, .ok w, [], false, [cacheUrl]⟩
      | none =>
        match upstream with
        | .error e => ⟨500, .error e, [], true, [cacheUrl]⟩
        | .ok rows =>
          if rows.length = 0 then
            ⟨200, .ok ⟨a, chain, [], []⟩, [], true, [cacheUrl]⟩
          else
            let cps := processRows a chain rows
            let resp : WalletData := ⟨a, chain, [], cps⟩
            ⟨200, .ok resp, [(cacheUrl, resp, 3600)], true, [cacheUrl]⟩

/-! ## The prefetch route (src/src/app/api/prefetch/route.ts)

The edge cache is modelled as the key/value state the jobs read and write
(`aget`/`aset`); each job checks the original cache (the three jobs start
concurrently, before any of them writes) and the flows and bridges jobs write
their upstream result on a miss-then-success.  The wallet job deliberately
performs no write: the route caches a processed view and the prefetch only
warms the raw upstream result (source comment, lines 79-82). -/

def DEFAULT_WALLET : String := "0xdbf5e9c5206d0db70a90108bf936da60221dc080"

def prefetchWalletUrl : String :=
  "https://cache.internal/api/wallet?address=" ++ DEFAULT_WALLET ++ "&chain=ethereum"

structure PrefetchOut (α : Type) where
  summary : List String
  cache : List (String × α)

def prefetchGET {α : Type} (apiKey : Option String) (now : Int)
    (cache : List (String × α)) (flowsUp bridgesUp walletUp : Except String α) :
    PrefetchOut α :=
  match apiKey with
  | none => ⟨["error: Missing ALLIUM_API_KEY"], cache⟩
  | some _ =>
    let endSnapped := hourFloorMs now
    let flowsStart := endSnapped - 24 * 3600000
    let fp : String × String := (snapToHour (fmtTs flowsStart), snapToHour (fmtTs endSnapped))
    let flowsUrl := flowsCacheUrl fp
    let bridgesStart := endSnapped - 3600000
    let bp : String × String := (snapToHour (fmtTs bridgesStart), snapToHour (fmtTs endSnapped))
    let bridgesUrl := bridgesCacheUrl bp
    let s1 :=
      if (aget cache flowsUrl).isSome then "flows (cached)"
      else match flowsUp with
        | .ok _ => "flows"
        | .error e => "rejected: " ++ e
    let s2 :=
      if (aget cache bridgesUrl).isSome then "bridges (cached)"
      else match bridgesUp with
        | .ok _ => "bridges"
        | .error e => "rejected: " ++ e
    let s3 :=
      if (aget cache prefetchWalletUrl).isSome then "wallet (cached)"
      else match walletUp with
        | .ok _ => "wallet"
        | .error e => "rejected: " ++ e
    let c1 :=
      if (aget cache flowsUrl).isSome then cache
      else match flowsUp with
        | .ok v => aset cache flowsUrl v
        | .error _ => cache
    let c2 :=
      if (aget cache bridgesUrl).isSome then c1
      else match bridgesUp with
        | .ok v => aset c1 bridgesUrl v
        | .error _ => c1
    ⟨[s1, s2, s3], c2⟩

/-! ## Association-list lemmas -/

theorem aget_cons {κ β : Type} [BEq κ] (k k' : κ) (v : β) (m : List (κ × β)) :
    aget ((k, v) :: m) k' = if (k == k') = true then some v else aget m k' := by
  simp only [aget, List.find?_cons]
  by_cases h : (k == k') = true <;> simp [h]

theorem aget_mem {κ β : Type} [BEq κ] [LawfulBEq κ] {m : List (κ × β)} {k : κ} {v : β}
    (h : aget m k = some v) : (k, v) ∈ m := by
  unfold aget at h
  obtain ⟨p, hfind, hv⟩ := Option.map_eq_some'.mp h
  have hmem := List.mem_of_find?_eq_some hfind
  have hpk := List.find?_some hfind
  have hp : p = (k, v) := by
    cases p with
    | mk pk pv =>
      simp only at hv hpk
      rw [Prod.mk.injEq]
      exact ⟨eq_of_beq hpk, hv⟩
  rwa [hp] at hmem

theorem aget_eq_none {κ β : Type} [BEq κ] {m : List (κ × β)} {k : κ}
    (h : aget m k = none) : ∀ p ∈ m, (p.1 == k) = false := by
  intro p hp
  unfold aget at h
  have hfind : m.find? (fun p => p.1 == k) = none := by
    cases hf : m.find? (fun p => p.1 == k) with
    | none => rfl
    | some q => rw [hf] at h; simp at h
  simpa using List.find?_eq_none.mp hfind p hp

theorem aset_of_aget_none {κ β : Type} [BEq κ] {m : List (κ × β)} {k : κ} (v : β)
    (h : aget m k = none) : aset m k v = m ++ [(k, v)] := by
  unfold aset
  rw [if_neg]
  intro hany
  obtain ⟨p, hp, hpk⟩ := List.any_eq_true.mp hany
  rw [aget_eq_none h p hp] at hpk
  exact Bool.false_ne_true hpk

theorem aget_map_replace {κ β : Type} [BEq κ] [LawfulBEq κ] (m : List (κ × β)) (k k' : κ)
    (v : β) (h : k' ≠ k) :
    aget (m.map (fun p => if p.1 == k then (k, v) else p)) k' = aget m k' := by
  induction m with
  | nil => rfl
  | cons q t ih =>
    by_cases hq : (q.1 == k) = true
    · have hqk : q.1 = k := eq_of_beq hq
      have h1 : (k == k') = false := by
        rw [beq_eq_false_iff_ne]; exact fun hh => h hh.symm
      have h2 : (q.1 == k') = false := by
        rw [beq_eq_false_iff_ne, hqk]; exact fun hh => h hh.symm
      simp only [List.map_cons, hq, if_true]
      cases q with
      | mk qk qv => rw [aget_cons, aget_cons, h1, h2]; simp [ih]
    · simp only [List.map_cons, hq, if_false]
      cases q with
      | mk qk qv =>
        rw [aget_cons, aget_cons]
        by_cases h2 : (qk == k') = true <;> simp [h2, ih]

theorem aget_append_single_ne {κ β : Type} [BEq κ] (m : List (κ × β)) (k k' : κ) (v : β)
    (h : (k == k') = false) : aget (m ++ [(k, v)]) k' = aget m k' := by
  induction m with
  | nil => simp [aget, List.find?, h]
  | cons q t ih =>
    cases q with
    | mk qk qv =>
      rw [List.cons_append, aget_cons, aget_cons]
      by_cases h2 : (qk == k') = true <;> simp [h2, ih]

theorem aget_aset_ne {κ β : Type} [BEq κ] [LawfulBEq κ] (m : List (κ × β)) (k k' : κ)
    (v : β) (h : k' ≠ k) : aget (aset m k v) k' = aget m k' := by
  unfold aset
  split
  · exact aget_map_replace m k k' v h
  · exact aget_append_single_ne m k k' v (by rw [beq_eq_false_iff_ne]; exact fun hh => h hh.symm)

/-! ## Coalescer: scenario computation lemmas -/

theorem runEvents_append {α : Type} (s : CState α) (t u : List (Ev α)) :
    runEvents s (t ++ u) = runEvents (runEvents s t) u :=
  List.foldl_append ..

theorem joinersTo_succ (n g : Nat) : joinersTo (n + 1) g = (n, g) :: joinersTo n g := by
  simp [joinersTo, List.range_succ]

theorem deliveredTo_succ {α : Type} (n : Nat) (o : Except String α) :
    deliveredTo (n + 1) o = (n, o) :: deliveredTo n o := by
  simp [deliveredTo, List.range_succ]

theorem stampList_any {β : Type} (x : β) (n m : Nat) (h : n ≤ m) :
    (((List.range n).reverse.map (fun c => (c, x))).any (fun p => p.1 == m)) = false := by
  rw [List.any_eq_false]
  intro q hq
  simp only [List.mem_map, List.mem_reverse, List.mem_range] at hq
  obtain ⟨c, hc, rfl⟩ := hq
  simp only [beq_iff_eq]
  omega

theorem joinersTo_any (n g m : Nat) (h : n ≤ m) :
    ((joinersTo n g).any (fun p => p.1 == m)) = false :=
  stampList_any g n m h

theorem aget_stamp {β : Type} (x : β) (n c : Nat) (h : c < n) :
    aget ((List.range n).reverse.map (fun c' => (c', x))) c = some x := by
  induction n with
  | zero => omega
  | succ n ih =>
    have hshape : (List.range (n + 1)).reverse.map (fun c' => (c', x)) =
        (n, x) :: (List.range n).reverse.map (fun c' => (c', x)) := by
      simp [List.range_succ]
    rw [hshape, aget_cons]
    by_cases hc : c = n
    · subst hc; simp
    · have hne : (n == c) = false := by simp [Nat.ne_of_gt]; omega
      rw [hne]
      simp only [Bool.false_eq_true, if_false]
      exact ih (by omega)

theorem aget_joinersTo (n g c : Nat) (h : c < n) : aget (joinersTo n g) c = some g :=
  aget_stamp g n c h

theorem aget_deliveredTo {α : Type} (N : Nat) (o : Except String α) (c : Nat) (h : c < N) :
    aget (deliveredTo N o) c = some o :=
  aget_stamp o N c h

theorem runEvents_singleton {α : Type} (s : CState α) (e : Ev α) :
    runEvents s [e] = stepEv s e := rfl

theorem calls_state (α : Type) (k : String) : ∀ M : Nat,
    runEvents (initState α) (callsTrace α (M + 1) k) =
      ⟨[(k, 0)], 1, [(k, 0)], joinersTo (M + 1) 0, [], []⟩ := by
  intro M
  induction M with
  | zero => rfl
  | succ M ih =>
    have hsplit : callsTrace α (M + 2) k = callsTrace α (M + 1) k ++ [Ev.call k (M + 1)] := by
      simp [callsTrace, List.range_succ]
    rw [hsplit, runEvents_append, ih, runEvents_singleton]
    rw [stepEv]
    simp only [joinersTo_any (M + 1) 0 (M + 1) le_rfl, Bool.false_eq_true, if_false]
    rw [show aget [(k, 0)] k = some 0 from by rw [aget_cons]; simp]
    simp [joinersTo_succ]

theorem settle_state (α : Type) (k : String) (J : List (Nat × Nat)) (o : Except String α) :
    stepEv (⟨[(k, 0)], 1, [(k, 0)], J, [], []⟩ : CState α) (Ev.settleOp 0 o) =
      ⟨[], 1, [(k, 0)], J, [(0, o)], []⟩ := by
  rw [stepEv]
  simp [adel, List.find?]

theorem deliver_state (α : Type) (k : String) (N : Nat) (o : Except String α) :
    ∀ j, j ≤ N →
    runEvents (⟨[], 1, [(k, 0)], joinersTo N 0, [(0, o)], []⟩ : CState α)
        ((List.range j).map Ev.deliver) =
      ⟨[], 1, [(k, 0)], joinersTo N 0, [(0, o)], deliveredTo j o⟩ := by
  intro j
  induction j with
  | zero => intro _; rfl
  | succ j ih =>
    intro hj
    have hsplit : (List.range (j + 1)).map (Ev.deliver (α := α)) =
        (List.range j).map Ev.deliver ++ [Ev.deliver j] := by
      simp [List.range_succ]
    rw [hsplit, runEvents_append, ih (by omega), runEvents_singleton]
    rw [stepEv]
    have hany : ((deliveredTo j o).any (fun d => d.1 == j)) = false :=
      stampList_any o j j le_rfl
    simp only [hany, Bool.false_eq_true, if_false]
    rw [aget_joinersTo N 0 j (by omega)]
    simp only []
    rw [show aget [(0, o)] 0 = some o from by rw [aget_cons]; simp]
    simp [deliveredTo_succ]

theorem dedup_final (α : Type) (k : String) (M : Nat) (o : Except String α) :
    runEvents (initState α) (dedupTrace α (M + 1) k o) =
      ⟨[], 1, [(k, 0)], joinersTo (M + 1) 0, [(0, o)], deliveredTo (M + 1) o⟩ := by
  rw [dedupTrace, runEvents_append, runEvents_append, calls_state]
  rw [show runEvents (⟨[(k, 0)], 1, [(k, 0)], joinersTo (M + 1) 0, [], []⟩ : CState α)
        [Ev.settleOp 0 o] = stepEv ⟨[(k, 0)], 1, [(k, 0)], joinersTo (M + 1) 0, [], []⟩
        (Ev.settleOp 0 o) from rfl]
  rw [settle_state]
  exact deliver_state α k (M + 1) o (M + 1) le_rfl

/-! ## Coalescer: invariants over arbitrary event traces -/

theorem countKeyEntries_step {α : Type} (s : CState α) (e : Ev α) (key : String)
    (h : countKeyEntries s key ≤ 1) : countKeyEntries (stepEv s e) key ≤ 1 := by
  cases e with
  | call k c =>
    rw [stepEv]
    by_cases hj : (s.joined.any fun p => p.1 == c) = true
    · rw [if_pos hj]; exact h
    · rw [if_neg hj]
      cases hg : aget s.table k with
      | some g => exact h
      | none =>
        simp only [countKeyEntries, aset_of_aget_none _ hg, List.filter_append,
          List.length_append]
        by_cases hkey : (k == key) = true
        · have h0 : (s.table.filter (fun p => p.1 == key)).length = 0 := by
            rw [List.length_eq_zero]
            rw [List.filter_eq_nil_iff]
            intro p hp
            have hk : k = key := eq_of_beq hkey
            subst hk
            simp [aget_eq_none hg p hp]
          rw [h0]
          simp [List.filter, hkey]
        · have h1 : (([(k, s.gen)]).filter (fun p => p.1 == key)).length = 0 := by
            simp [List.filter, hkey]
          rw [h1]
          simpa [countKeyEntries] using h
  | settleOp g o =>
    rw [stepEv]
    cases hf : s.invokedFor.find? (fun p => p.2 == g) with
    | none => exact h
    | some p =>
      simp only []
      by_cases hs2 : (s.settledOut.any fun q => q.1 == g) = true
      · rw [if_pos hs2]; exact h
      · rw [if_neg hs2]
        refine le_trans ?_ h
        simp only [countKeyEntries, adel]
        exact List.Sublist.length_le ((List.filter_sublist _).filter _)
  | deliver c =>
    rw [stepEv]
    by_cases hd : (s.delivered.any fun d => d.1 == c) = true
    · rw [if_pos hd]; exact h
    · rw [if_neg hd]
      cases h1 : aget s.joined c with
      | none => exact h
      | some g =>
        simp only []
        cases h2 : aget s.settledOut g with
        | none => exact h
        | some o => exact h

theorem countKeyEntries_run_aux {α : Type} (evs : List (Ev α)) (key : String) :
    ∀ s : CState α, countKeyEntries s key ≤ 1 →
      countKeyEntries (runEvents s evs) key ≤ 1 := by
  induction evs with
  | nil => exact fun s hs => hs
  | cons e t ih => exact fun s hs => ih _ (countKeyEntries_step s e key hs)

theorem countKeyEntries_runEvents (α : Type) (evs : List (Ev α)) (key : String) :
    countKeyEntries (runEvents (initState α) evs) key ≤ 1 :=
  countKeyEntries_run_aux evs key _ (by simp [countKeyEntries, initState])

theorem goodState_step {α : Type} (s : CState α) (e : Ev α) (h : GoodState s) :
    GoodState (stepEv s e) := by
  obtain ⟨h1, h2, h3, h4, h5, h6, h7⟩ := h
  cases e with
  | call k c =>
    rw [stepEv]
    by_cases hj : (s.joined.any fun p => p.1 == c) = true
    · rw [if_pos hj]; exact ⟨h1, h2, h3, h4, h5, h6, h7⟩
    · rw [if_neg hj]
      have hjf : ∀ p ∈ s.joined, p.1 ≠ c := by
        intro p hp
        have hj' : (s.joined.any fun p => p.1 == c) = false := by
          cases hb : (s.joined.any fun p => p.1 == c) with
          | true => exact absurd hb hj
          | false => rfl
        have := List.any_eq_false.mp hj' p hp
        simpa using this
      cases hg : aget s.table k with
      | some g =>
        simp only []
        refine ⟨h1, h2, h3, h4, h5, ?_, ?_⟩
        · intro p hp q hq hpq
          rcases List.mem_cons.mp hp with hp | hp <;> rcases List.mem_cons.mp hq with hq | hq
          · rw [hp, hq]
          · subst hp
            exact absurd (show q.1 = c by simpa using hpq.symm) (hjf q hq)
          · subst hq
            exact absurd (show p.1 = c by simpa using hpq) (hjf p hp)
          · exact h6 p hp q hq hpq
        · intro d hd
          obtain ⟨g', hg1, hg2⟩ := h7 d hd
          exact ⟨g', List.mem_cons_of_mem _ hg1, hg2⟩
      | none =>
        simp only []
        have htab : aset s.table k s.gen = s.table ++ [(k, s.gen)] := aset_of_aget_none _ hg
        rw [htab]
        refine ⟨?_, ?_, ?_, ?_, ?_, ?_, ?_⟩
        · intro p hp
          rcases List.mem_append.mp hp with hp | hp
          · exact List.mem_append_left _ (h1 p hp)
          · exact List.mem_append_right _ hp
        · intro p hp o ho
          rcases List.mem_append.mp hp with hp | hp
          · exact h2 p hp o ho
          · rw [List.mem_singleton] at hp
            subst hp
            obtain ⟨k', hk'⟩ := h5 (s.gen, o) ho
            exact absurd (h3 (k', s.gen) hk') (lt_irrefl _)
        · intro p hp
          rcases List.mem_append.mp hp with hp | hp
          · exact Nat.lt_succ_of_lt (h3 p hp)
          · rw [List.mem_singleton] at hp
            subst hp
            exact Nat.lt_succ_self _
        · intro p hp q hq hpq
          rcases List.mem_append.mp hp with hp | hp <;> rcases List.mem_append.mp hq with hq | hq
          · exact h4 p hp q hq hpq
          · rw [List.mem_singleton] at hq
            subst hq
            have hp2 : p.2 = s.gen := by simpa using hpq
            exact absurd (h3 p hp) (by rw [hp2]; exact lt_irrefl _)
          · rw [List.mem_singleton] at hp
            subst hp
            have hq2 : q.2 = s.gen := by simpa using hpq.symm
            exact absurd (h3 q hq) (by rw [hq2]; exact lt_irrefl _)
          · rw [List.mem_singleton] at hp hq
            rw [hp, hq]
        · intro q hq
          obtain ⟨k', hk'⟩ := h5 q hq
          exact ⟨k', List.mem_append_left _ hk'⟩
        · intro p hp q hq hpq
          rcases List.mem_cons.mp hp with hp | hp <;> rcases List.mem_cons.mp hq with hq | hq
          · rw [hp, hq]
          · subst hp
            exact absurd (show q.1 = c by simpa using hpq.symm) (hjf q hq)
          · subst hq
            exact absurd (show p.1 = c by simpa using hpq) (hjf p hp)
          · exact h6 p hp q hq hpq
        · intro d hd
          obtain ⟨g', hg1, hg2⟩ := h7 d hd
          exact ⟨g', List.mem_cons_of_mem _ hg1, hg2⟩
  | settleOp g o =>
    rw [stepEv]
    cases hf : s.invokedFor.find? (fun p => p.2 == g) with
    | none => exact ⟨h1, h2, h3, h4, h5, h6, h7⟩
    | some p =>
      simp only []
      by_cases hs2 : (s.settledOut.any fun q => q.1 == g) = true
      · rw [if_pos hs2]; exact ⟨h1, h2, h3, h4, h5, h6, h7⟩
      · rw [if_neg hs2]
        have hpmem : p ∈ s.invokedFor := List.mem_of_find?_eq_some hf
        have hpg2 : p.2 = g := by simpa using List.find?_some hf
        refine ⟨?_, ?_, h3, h4, ?_, h6, ?_⟩
        · intro p' hp'
          exact h1 p' (List.mem_filter.mp hp').1
        · intro p' hp' o' ho'
          have hp'tab : p' ∈ s.table := (List.mem_filter.mp hp').1
          have hp'ne : p'.1 ≠ p.1 := by
            have := (List.mem_filter.mp hp').2
            simpa using this
          rcases List.mem_cons.mp ho' with ho' | ho'
          · have hg2 : p'.2 = g := by
              have := congrArg Prod.fst ho'
              simpa using this
            have hpp : p' = p := h4 p' (h1 p' hp'tab) p hpmem (by rw [hg2, hpg2])
            exact hp'ne (by rw [hpp])
          · exact h2 p' hp'tab o' ho'
        · intro q hq
          rcases List.mem_cons.mp hq with hq | hq
          · refine ⟨p.1, ?_⟩
            have hq1 : q.1 = g := by
              have := congrArg Prod.fst hq
              simpa using this
            rw [hq1, ← hpg2]
            exact hpmem
          · exact h5 q hq
        · intro d hd
          obtain ⟨g', h71, h72⟩ := h7 d hd
          exact ⟨g', h71, List.mem_cons_of_mem _ h72⟩
  | deliver c =>
    rw [stepEv]
    by_cases hd : (s.delivered.any fun d => d.1 == c) = true
    · rw [if_pos hd]; exact ⟨h1, h2, h3, h4, h5, h6, h7⟩
    · rw [if_neg hd]
      cases hagj : aget s.joined c with
      | none => exact ⟨h1, h2, h3, h4, h5, h6, h7⟩
      | some g =>
        simp only []
        cases hags : aget s.settledOut g with
        | none => exact ⟨h1, h2, h3, h4, h5, h6, h7⟩
        | some o =>
          refine ⟨h1, h2, h3, h4, h5, h6, ?_⟩
          intro d hd'
          rcases List.mem_cons.mp hd' with hd' | hd'
          · subst hd'
            exact ⟨g, aget_mem hagj, aget_mem hags⟩
          · exact h7 d hd'

theorem goodState_run_aux {α : Type} (evs : List (Ev α)) :
    ∀ s : CState α, GoodState s → GoodState (runEvents s evs) := by
  induction evs with
  | nil => exact fun s hs => hs
  | cons e t ih => exact fun s hs => ih _ (goodState_step s e hs)

theorem goodState_runEvents {α : Type} (evs : List (Ev α)) :
    GoodState (runEvents (initState α) evs) := by
  apply goodState_run_aux
  refine ⟨?_, ?_, ?_, ?_, ?_, ?_, ?_⟩ <;> intro p hp <;> exact absurd hp (List.not_mem_nil p)

theorem delivered_table_disjoint {α : Type} (evs : List (Ev α)) (c : Nat)
    (o : Except String α) (g : Nat) (key : String)
    (hd : (c, o) ∈ (runEvents (initState α) evs).delivered)
    (hj : (c, g) ∈ (runEvents (initState α) evs).joined) :
    (key, g) ∉ (runEvents (initState α) evs).table := by
  intro htab
  obtain ⟨h1, h2, h3, h4, h5, h6, h7⟩ := goodState_runEvents evs
  obtain ⟨g', hg1, hg2⟩ := h7 (c, o) hd
  have heq : ((c, g') : Nat × Nat) = (c, g) := h6 (c, g') hg1 (c, g) hj rfl
  have hgg : g' = g := by
    have := congrArg Prod.snd heq
    simpa using this
  rw [hgg] at hg2
  exact h2 (key, g) htab o hg2

/-- C1: for every fingerprint `k` and every number `N ≥ 1` of callers that
invoke `dedup(k, op)` concurrently before the underlying operation settles (in
the single-threaded cooperative scheduling model: the `N` call events run
before the settle event), the operation is invoked exactly once, every one of
the `N` callers is delivered the identical settled value or identical error
`o`, and at every instant of the schedule (every prefix of the event trace) at
most one in-flight table entry exists per fingerprint. -/
theorem dedup_coalesces (α : Type) (N : Nat) (hN : 1 ≤ N) (o : Except String α)
    (k : String) :
    countInvocations (runEvents (initState α) (dedupTrace α N k o)) k = 1 ∧
    (∀ c, c < N → aget (runEvents (initState α) (dedupTrace α N k o)).delivered c = some o) ∧
    (∀ n key,
      countKeyEntries (runEvents (initState α) ((dedupTrace α N k o).take n)) key ≤ 1) := by
  obtain ⟨M, rfl⟩ : ∃ M, N = M + 1 := ⟨N - 1, by omega⟩
  refine ⟨?_, ?_, ?_⟩
  · rw [dedup_final]
    simp [countInvocations, List.filter]
  · intro c hc
    rw [dedup_final]
    exact aget_deliveredTo (M + 1) o c hc
  · intro n key
    exact countKeyEntries_runEvents α _ key

theorem dedup_coalesces_witness :
    1 ≤ 2 ∧
    (countInvocations (runEvents (initState Nat) (dedupTrace Nat 2 "k" (Except.ok 42))) "k" = 1 ∧
     (∀ c, c < 2 →
       aget (runEvents (initState Nat) (dedupTrace Nat 2 "k" (Except.ok 42))).delivered c =
         some (Except.ok 42)) ∧
     (∀ n key,
       countKeyEntries
         (runEvents (initState Nat) ((dedupTrace Nat 2 "k" (Except.ok 42)).take n)) key ≤ 1)) :=
  ⟨by decide, dedup_coalesces Nat 2 (by decide) (Except.ok 42) "k"⟩

/-- C2: for every call `dedup(k, op)`: the in-flight entry for `k` is removed
when the operation settles — on success and on failure alike (first conjunct,
for an arbitrary outcome `o`); in every reachable state, a caller that has
been delivered an outcome joined a generation that no longer has any table
entry, i.e. the entry is removed before the result or error is delivered to
any caller that joined (second conjunct); if the operation rejects, the same
rejection is delivered to every one of the `N` waiting callers (third
conjunct); and no retry is performed — the operation was invoked exactly once
for `k` over the whole schedule (fourth conjunct). -/
theorem dedup_settle_cleanup (α : Type) (N : Nat) (hN : 1 ≤ N) (e : String)
    (k : String) :
    (∀ o : Except String α,
      aget (runEvents (initState α) (callsTrace α N k ++ [Ev.settleOp 0 o])).table k = none) ∧
    (∀ evs : List (Ev α), ∀ c : Nat, ∀ o : Except String α, ∀ g : Nat, ∀ key : String,
      (c, o) ∈ (runEvents (initState α) evs).delivered →
      (c, g) ∈ (runEvents (initState α) evs).joined →
      (key, g) ∉ (runEvents (initState α) evs).table) ∧
    (∀ c, c < N →
      aget (runEvents (initState α) (dedupTrace α N k (Except.error e))).delivered c =
        some (Except.error e)) ∧
    countInvocations (runEvents (initState α) (dedupTrace α N k (Except.error e))) k = 1 := by
  obtain ⟨M, rfl⟩ : ∃ M, N = M + 1 := ⟨N - 1, by omega⟩
  refine ⟨?_, ?_, ?_, ?_⟩
  · intro o
    rw [runEvents_append, calls_state, runEvents_singleton, settle_state]
    rfl
  · intro evs c o g key hd hj
    exact delivered_table_disjoint evs c o g key hd hj
  · intro c hc
    rw [dedup_final]
    exact aget_deliveredTo (M + 1) (Except.error e) c hc
  · rw [dedup_final]
    simp [countInvocations, List.filter]

theorem dedup_settle_cleanup_witness :
    1 ≤ 2 ∧
    ((∀ o : Except String Nat,
       aget (runEvents (initState Nat) (callsTrace Nat 2 "k" ++ [Ev.settleOp 0 o])).table "k" =
         none) ∧
     (∀ evs : List (Ev Nat), ∀ c : Nat, ∀ o : Except String Nat, ∀ g : Nat, ∀ key : String,
       (c, o) ∈ (runEvents (initState Nat) evs).delivered →
       (c, g) ∈ (runEvents (initState Nat) evs).joined →
       (key, g) ∉ (runEvents (initState Nat) evs).table) ∧
     (∀ c, c < 2 →
       aget (runEvents (initState Nat) (dedupTrace Nat 2 "k" (Except.error "boom"))).delivered
           c =
         some (Except.error "boom")) ∧
     countInvocations (runEvents (initState Nat) (dedupTrace Nat 2 "k" (Except.error "boom")))
         "k" =
       1) :=
  ⟨by decide, dedup_settle_cleanup Nat 2 (by decide) "boom" "k"⟩

/-- C3: store-error behavior of the edge-cache wrappers.  `cfCacheMatch`
absorbs the store being unavailable, a rejecting `cache.match`, and a miss —
but NOT a failure of the body read: `return res.json()` returns the pending
promise from inside the `try` block without `await`, so a rejection of
`res.json()` (a store-level failure while retrieving the cached value) escapes
the `catch` and propagates to the caller (first conjunct — this is the bug the
claim's universal statement trips over).  `cfCachePut` never rejects on
store-level error; the write is silently dropped. -/
theorem cfCacheMatch_json_escape :
    cfCacheMatch (StoreEnv.available (MatchStep.hit (JsonRead.fails : JsonRead Nat))) =
      Except.error () ∧
    cfCacheMatch (StoreEnv.noStore : StoreEnv Nat) = Except.ok none ∧
    cfCacheMatch (StoreEnv.available (MatchStep.throws : MatchStep Nat)) = Except.ok none ∧
    cfCacheMatch (StoreEnv.available (MatchStep.miss : MatchStep Nat)) = Except.ok none ∧
    (∀ v : Nat, cfCacheMatch (StoreEnv.available (MatchStep.hit (JsonRead.parses v))) =
      Except.ok (some v)) ∧
    (∀ p : PutStep, (cfCachePut p).isOk = true) ∧
    cfCachePut PutStep.throwsOnPut = Except.ok false := by
  refine ⟨rfl, rfl, rfl, rfl, fun v => rfl, ?_, rfl⟩
  intro p
  cases p <;> rfl

/-- C4 counterexample: on the normalized 12-hour range the code returns
3600000 (milliseconds), not the 3600 (seconds) the claim states. -/
theorem ttlForRange_not_seconds :
    ttlForRange "2025-01-06 00:00:00" "2025-01-06 12:00:00" = 3600000 ∧
    ttlForRange "2025-01-06 00:00:00" "2025-01-06 12:00:00" ≠ 3600 := by
  have h1 : parseTs "2025-01-06 00:00:00" = some 1736121600000 := by decide
  have h2 : parseTs "2025-01-06 12:00:00" = some 1736164800000 := by decide
  have hval : ttlForRange "2025-01-06 00:00:00" "2025-01-06 12:00:00" = 3600000 := by
    unfold ttlForRange
    rw [h1, h2]
    simp only []
    split_ifs with hc1 hc2
    · exfalso; norm_num at hc1
    · exfalso; norm_num at hc2
    · rfl
  exact ⟨hval, by rw [hval]; decide⟩

/-- C4 amended: `ttlForRange` returns its cache lifetime in milliseconds (the
routes divide by 1000 before using it as seconds): a span of 12 hours yields
3600000, 48 hours yields 7200000, 200 hours yields 21600000. -/
theorem ttlForRange_millis (s e : String) (a b : Int)
    (hs : parseTs s = some a) (he : parseTs e = some b) :
    (b - a = 43200000 → ttlForRange s e = 3600000) ∧
    (b - a = 172800000 → ttlForRange s e = 7200000) ∧
    (b - a = 720000000 → ttlForRange s e = 21600000) := by
  unfold ttlForRange
  rw [hs, he]
  simp only []
  refine ⟨?_, ?_, ?_⟩ <;> intro hab <;> rw [hab] <;> split_ifs with hc1 hc2
  · exfalso; norm_num at hc1
  · exfalso; norm_num at hc2
  · rfl
  · exfalso; norm_num at hc1
  · rfl
  · exfalso; norm_num at hc2
  · rfl
  · exfalso; norm_num at hc1
  · exfalso; norm_num at hc2

theorem ttlForRange_millis_witness :
    parseTs "2025-01-06 00:00:00" = some 1736121600000 ∧
    parseTs "2025-01-06 12:00:00" = some 1736164800000 ∧
    (((1736164800000 : Int) - 1736121600000 = 43200000 →
       ttlForRange "2025-01-06 00:00:00" "2025-01-06 12:00:00" = 3600000) ∧
     ((1736164800000 : Int) - 1736121600000 = 172800000 →
       ttlForRange "2025-01-06 00:00:00" "2025-01-06 12:00:00" = 7200000) ∧
     ((1736164800000 : Int) - 1736121600000 = 720000000 →
       ttlForRange "2025-01-06 00:00:00" "2025-01-06 12:00:00" = 21600000)) :=
  ⟨by decide, by decide,
    ttlForRange_millis "2025-01-06 00:00:00" "2025-01-06 12:00:00" 1736121600000
      1736164800000 (by decide) (by decide)⟩

/-- Hour-aligned timestamps are fixed points of `snapToHour` after formatting:
the minutes and seconds fields format as "00", so slicing off the first 13
characters and re-appending ":00:00" reproduces the string. -/
theorem snapToHour_fmtTs (t : Int) (h : t % 3600000 = 0) :
    snapToHour (fmtTs t) = fmtTs t := by
  have hdvd1 : ((3600000 : Int) ∣ 86400000) := ⟨24, by norm_num⟩
  have hdvd2 : ((60000 : Int) ∣ 86400000) := ⟨1440, by norm_num⟩
  have h1 : t % 86400000 % 3600000 = 0 := by
    rw [Int.emod_emod_of_dvd _ hdvd1]; exact h
  have h2 : t % 86400000 % 60000 = 0 := by
    rw [Int.emod_emod_of_dvd _ hdvd2]
    have hd : (60000 : Int) ∣ t := dvd_trans ⟨60, by norm_num⟩ (Int.dvd_of_emod_eq_zero h)
    exact Int.emod_eq_zero_of_dvd hd
  simp only [fmtTs]
  rw [h1, h2]
  rfl

theorem hourFloorMs_emod (m : Int) : hourFloorMs m % 3600000 = 0 := by
  unfold hourFloorMs
  exact Int.mul_emod_left _ _

/-- Default-window normal form of the flows route: both default endpoints are
already hour-aligned, so the route's `snapToHour` leaves them unchanged. -/
theorem flowsParams_default (m : Int) :
    flowsParams none none m =
      (fmtTs (hourFloorMs m - 86400000), fmtTs (hourFloorMs m)) := by
  have hf := hourFloorMs_emod m
  have h24 : (hourFloorMs m - 86400000) % 3600000 = 0 := by omega
  simp only [flowsParams, jsOr]
  rw [show hourFloorMs m - 24 * 3600000 = hourFloorMs m - 86400000 by norm_num]
  rw [snapToHour_fmtTs _ h24, snapToHour_fmtTs _ hf]

/-- Default-window normal form of the bridges route: a one-hour window. -/
theorem bridgesParams_default (m : Int) :
    bridgesParams none none m =
      (fmtTs (hourFloorMs m - 3600000), fmtTs (hourFloorMs m)) := by
  have hf := hourFloorMs_emod m
  have h1 : (hourFloorMs m - 3600000) % 3600000 = 0 := by omega
  simp only [bridgesParams, jsOr]
  rw [snapToHour_fmtTs _ h1, snapToHour_fmtTs _ hf]

/-- C5 counterexample: at 2025-01-06 13:05:12 UTC the bridges route's default
window spans one hour (12:00 to 13:00), not the claimed 24 hours. -/
theorem bridges_default_window_1h :
    bridgesParams none none 1736168712000 = ("2025-01-06 12:00:00", "2025-01-06 13:00:00") ∧
    parseTs "2025-01-06 12:00:00" = some 1736164800000 ∧
    parseTs "2025-01-06 13:00:00" = some 1736168400000 ∧
    (1736168400000 : Int) - 1736164800000 = 3600000 ∧
    (3600000 : Int) ≠ 86400000 :=
  ⟨by decide, by decide, by decide, by decide, by decide⟩

/-- C5 amended: with no explicit range, the flows route uses end = now snapped
to the hour and start = end − 24 hours, while the bridges route uses
start = end − 1 hour (and the wallet route takes no time-range parameters at
all).  Both defaults pass through the same `snapToHour` used for explicit
input and are fixed points of it (first two conjuncts: the produced parameter
strings are exactly the formatted hour-floored endpoints), so two callers
hitting the default within the same hour get identical parameter strings and
hence the same fingerprint (remaining conjuncts). -/
theorem default_windows (now now2 : Int) (hsame : hourFloorMs now = hourFloorMs now2) :
    flowsParams none none now =
      (fmtTs (hourFloorMs now - 86400000), fmtTs (hourFloorMs now)) ∧
    bridgesParams none none now =
      (fmtTs (hourFloorMs now - 3600000), fmtTs (hourFloorMs now)) ∧
    flowsParams none none now = flowsParams none none now2 ∧
    bridgesParams none none now = bridgesParams none none now2 ∧
    cacheKey FLOWS_QUERY_ID [("start_date", (flowsParams none none now).1),
        ("end_date", (flowsParams none none now).2)] =
      cacheKey FLOWS_QUERY_ID [("start_date", (flowsParams none none now2).1),
        ("end_date", (flowsParams none none now2).2)] := by
  have hc3 : flowsParams none none now = flowsParams none none now2 := by
    rw [flowsParams_default, flowsParams_default, hsame]
  refine ⟨flowsParams_default now, bridgesParams_default now, hc3, ?_, ?_⟩
  · rw [bridgesParams_default, bridgesParams_default, hsame]
  · rw [hc3]

theorem default_windows_witness :
    hourFloorMs 1736168712000 = hourFloorMs 1736168712001 ∧
    (flowsParams none none 1736168712000 =
       (fmtTs (hourFloorMs 1736168712000 - 86400000), fmtTs (hourFloorMs 1736168712000)) ∧
     bridgesParams none none 1736168712000 =
       (fmtTs (hourFloorMs 1736168712000 - 3600000), fmtTs (hourFloorMs 1736168712000)) ∧
     flowsParams none none 1736168712000 = flowsParams none none 1736168712001 ∧
     bridgesParams none none 1736168712000 = bridgesParams none none 1736168712001 ∧
     cacheKey FLOWS_QUERY_ID [("start_date", (flowsParams none none 1736168712000).1),
         ("end_date", (flowsParams none none 1736168712000).2)] =
       cacheKey FLOWS_QUERY_ID [("start_date", (flowsParams none none 1736168712001).1),
         ("end_date", (flowsParams none none 1736168712001).2)]) :=
  ⟨by decide, default_windows 1736168712000 1736168712001 (by decide)⟩

/-- C7: the fingerprint is order-independent — any permutation of the same
parameter set (a JS object's entries: pairwise-distinct keys) yields the
byte-identical fingerprint string, because `cacheKey` sorts the entries by key
before joining them. -/
theorem cacheKey_perm (qid : String) (l₁ l₂ : List (String × String))
    (hp : l₁.Perm l₂) (hnd : (l₁.map Prod.fst).Nodup) :
    cacheKey qid l₁ = cacheKey qid l₂ := by
  have htrans : ∀ a b c : String × String, decide (a.1 ≤ b.1) = true →
      decide (b.1 ≤ c.1) = true → decide (a.1 ≤ c.1) = true := by
    intro a b c hab hbc
    simp only [decide_eq_true_eq] at *
    exact le_trans hab hbc
  have htotal : ∀ a b : String × String,
      (decide (a.1 ≤ b.1) || decide (b.1 ≤ a.1)) = true := by
    intro a b
    simp only [Bool.or_eq_true, decide_eq_true_eq]
    exact le_total a.1 b.1
  have hs1 := List.sorted_mergeSort htrans htotal l₁
  have hs2 := List.sorted_mergeSort htrans htotal l₂
  have hperm : (l₁.mergeSort (fun p q => decide (p.1 ≤ q.1))).Perm
      (l₂.mergeSort (fun p q => decide (p.1 ≤ q.1))) :=
    ((l₁.mergeSort_perm _).trans hp).trans (l₂.mergeSort_perm _).symm
  have hnd1 : ((l₁.mergeSort (fun p q => decide (p.1 ≤ q.1))).map Prod.fst).Nodup :=
    ((l₁.mergeSort_perm _).map Prod.fst).nodup_iff.mpr hnd
  have hnd2 : ((l₂.mergeSort (fun p q => decide (p.1 ≤ q.1))).map Prod.fst).Nodup :=
    ((l₂.mergeSort_perm _).map Prod.fst).nodup_iff.mpr ((hp.map Prod.fst).nodup_iff.mp hnd)
  have hstrict : ∀ l : List (String × String),
      List.Pairwise (fun a b => decide (a.1 ≤ b.1) = true) l →
      (l.map Prod.fst).Nodup →
      List.Pairwise (fun a b : String × String => a.1 < b.1) l := by
    intro l hle hn
    have hne : List.Pairwise (fun a b : String × String => a.1 ≠ b.1) l :=
      (List.pairwise_map).mp hn
    refine (hle.and hne).imp ?_
    intro a b hab
    exact lt_of_le_of_ne (by simpa using hab.1) hab.2
  haveI : IsAntisymm (String × String) (fun a b => a.1 < b.1) :=
    ⟨fun a b h1 h2 => absurd (lt_trans h1 h2) (lt_irrefl _)⟩
  have heq : l₁.mergeSort (fun p q => decide (p.1 ≤ q.1)) =
      l₂.mergeSort (fun p q => decide (p.1 ≤ q.1)) :=
    List.eq_of_perm_of_sorted hperm (hstrict _ hs1 hnd1) (hstrict _ hs2 hnd2)
  unfold cacheKey
  rw [heq]

theorem cacheKey_perm_witness :
    ([("start_date", "A"), ("end_date", "B")] : List (String × String)).Perm
      [("end_date", "B"), ("start_date", "A")] ∧
    (([("start_date", "A"), ("end_date", "B")] : List (String × String)).map Prod.fst).Nodup ∧
    cacheKey "Q" [("start_date", "A"), ("end_date", "B")] =
      cacheKey "Q" [("end_date", "B"), ("start_date", "A")] :=
  ⟨by decide, by decide,
    cacheKey_perm "Q" [("start_date", "A"), ("end_date", "B")]
      [("end_date", "B"), ("start_date", "A")] (by decide) (by decide)⟩

/-- C6: when the upstream operation fails (rejects, or times out — a timeout
surfaces as the same rejection), each data-serving route returns the
fixed-shape error body with status 500 (non-2xx) and performs no edge-cache
write (conjuncts 1-3 give the full outputs on the failure path: empty
`putCalls`); `cfCachePut` is invoked only after a successful upstream result —
the remaining conjuncts enumerate the success paths, where the only write
carries the upstream success value (flows, bridges) or the processed response
(wallet, skipped for zero rows). -/
theorem upstream_failure_behavior (α : Type) (k : String) (sd ed : Option String)
    (now : Int) (e : String) (v : α) (a : String) (ha : a.length ≠ 0)
    (ch : Option String) (r : Row) (rest : List Row) :
    flowsGET (α := α) (some k) sd ed now none (Except.error e) =
      ⟨500, Except.error e, [], true, [flowsCacheUrl (flowsParams sd ed now)]⟩ ∧
    bridgesGET (α := α) (some k) sd ed now none (Except.error e) =
      ⟨500, Except.error e, [], true, [bridgesCacheUrl (bridgesParams sd ed now)]⟩ ∧
    walletGET (some k) (some a) ch none (Except.error e) =
      ⟨500, Except.error e, [], true, [walletCacheUrl a (jsOr ch "ethereum")]⟩ ∧
    (flowsGET (some k) sd ed now none (Except.ok v)).putCalls =
      [(flowsCacheUrl (flowsParams sd ed now), v,
        ttlForRange (flowsParams sd ed now).1 (flowsParams sd ed now).2 / 1000)] ∧
    (bridgesGET (some k) sd ed now none (Except.ok v)).putCalls =
      [(bridgesCacheUrl (bridgesParams sd ed now), v,
        ttlForRange (bridgesParams sd ed now).1 (bridgesParams sd ed now).2 / 1000)] ∧
    (walletGET (some k) (some a) ch none (Except.ok [])).putCalls = [] ∧
    (walletGET (some k) (some a) ch none (Except.ok (r :: rest))).putCalls =
      [(walletCacheUrl a (jsOr ch "ethereum"),
        ⟨a, jsOr ch "ethereum", [], processRows a (jsOr ch "ethereum") (r :: rest)⟩, 3600)] := by
  refine ⟨rfl, rfl, ?_, rfl, rfl, ?_, ?_⟩ <;>
    · simp only [walletGET]
      rw [if_neg ha]
      try rfl

theorem upstream_failure_behavior_witness :
    ("0xab" : String).length ≠ 0 ∧
    (flowsGET (α := Nat) (some "key") none none 1736168712000 none (Except.error "boom") =
       ⟨500, Except.error "boom", [], true,
        [flowsCacheUrl (flowsParams none none 1736168712000)]⟩ ∧
     bridgesGET (α := Nat) (some "key") none none 1736168712000 none (Except.error "boom") =
       ⟨500, Except.error "boom", [], true,
        [bridgesCacheUrl (bridgesParams none none 1736168712000)]⟩ ∧
     walletGET (some "key") (some "0xab") none none (Except.error "boom") =
       ⟨500, Except.error "boom", [], true, [walletCacheUrl "0xab" (jsOr none "ethereum")]⟩ ∧
     (flowsGET (some "key") none none 1736168712000 none (Except.ok (7 : Nat))).putCalls =
       [(flowsCacheUrl (flowsParams none none 1736168712000), 7,
         ttlForRange (flowsParams none none 1736168712000).1
             (flowsParams none none 1736168712000).2 / 1000)] ∧
     (bridgesGET (some "key") none none 1736168712000 none (Except.ok (7 : Nat))).putCalls =
       [(bridgesCacheUrl (bridgesParams none none 1736168712000), 7,
         ttlForRange (bridgesParams none none 1736168712000).1
             (bridgesParams none none 1736168712000).2 / 1000)] ∧
     (walletGET (some "key") (some "0xab") none none (Except.ok [])).putCalls = [] ∧
     (walletGET (some "key") (some "0xab") none none
         (Except.ok [⟨"0xcd", "sent", 1, "cex", "", "", none⟩])).putCalls =
       [(walletCacheUrl "0xab" (jsOr none "ethereum"),
         ⟨"0xab", jsOr none "ethereum", [],
          processRows "0xab" (jsOr none "ethereum")
            [⟨"0xcd", "sent", 1, "cex", "", "", none⟩]⟩, 3600)]) :=
  ⟨by decide,
    upstream_failure_behavior Nat "key" none none 1736168712000 "boom" 7 "0xab" (by decide)
      none ⟨"0xcd", "sent", 1, "cex", "", "", none⟩ []⟩

/-- C9: with the API key configured but the address parameter absent, the
wallet route returns 400 with exactly the "Missing address parameter" error
body, and performs no upstream call, no cache read and no cache write. -/
theorem wallet_missing_address (k : String) (ch : Option String)
    (cached : Option WalletData) (up : Except String (List Row)) :
    walletGET (some k) none ch cached up =
      ⟨400, Except.error "Missing address parameter", [], false, []⟩ := rfl

/-- C10 counterexample: a successful upstream result with one row whose
counterparty is the wallet itself produces a processed response with empty
counterparties, and the route still writes it to the wallet cache key — so it
is not true that only non-empty processed results are ever written. -/
theorem wallet_empty_write_cex :
    (walletGET (some "key") (some "0xab") none none
        (Except.ok [⟨"0xAB", "sent", 3, "cex", "", "", none⟩])).putCalls =
      [(walletCacheUrl "0xab" "ethereum", ⟨"0xab", "ethereum", [], []⟩, 3600)] ∧
    [(walletCacheUrl "0xab" "ethereum", (⟨"0xab", "ethereum", [], []⟩ : WalletData), 3600)] ≠
      [] := by
  have hcp : processRows "0xab" "ethereum" [⟨"0xAB", "sent", 3, "cex", "", "", none⟩] = [] := by
    simp only [processRows, List.foldl_cons, List.foldl_nil, rowFold]
    rw [if_pos (by decide)]
    simp
  constructor
  · simp only [walletGET, jsOr]
    rw [if_neg (by decide : ¬("0xab" : String).length = 0)]
    simp [hcp]
  · decide

/-- C10 amended: a wallet request whose upstream succeeds with zero rows
returns the success payload with empty transactions and counterparties and
skips the edge-cache write; the write is skipped exactly when the extracted
rows list is empty — any non-empty rows list is written (third conjunct), even
when every row is a self-reference and the processed counterparty list is
empty, so what is never cached is the zero-rows result, not every empty
processed view. -/
theorem wallet_write_iff_rows (k a : String) (ha : a.length ≠ 0) (ch : Option String) :
    walletGET (some k) (some a) ch none (Except.ok []) =
      ⟨200, Except.ok ⟨a, jsOr ch "ethereum", [], []⟩, [], true,
        [walletCacheUrl a (jsOr ch "ethereum")]⟩ ∧
    (∀ (cached : Option WalletData) (up : Except String (List Row)),
      (walletGET (some k) (some a) ch cached up).putCalls ≠ [] →
      cached = none ∧ ∃ r rs, up = Except.ok (r :: rs)) ∧
    (∀ (r : Row) (rs : List Row),
      (walletGET (some k) (some a) ch none (Except.ok (r :: rs))).putCalls ≠ []) := by
  refine ⟨?_, ?_, ?_⟩
  · simp [walletGET, ha]
  · intro cached up hput
    cases cached with
    | some w => exact absurd (by simp [walletGET, ha]) hput
    | none =>
      cases up with
      | error e => exact absurd (by simp [walletGET, ha]) hput
      | ok rows =>
        cases rows with
        | nil => exact absurd (by simp [walletGET, ha]) hput
        | cons r rs => exact ⟨rfl, r, rs, rfl⟩
  · intro r rs
    simp [walletGET, ha]

theorem wallet_write_iff_rows_witness :
    ("0xab" : String).length ≠ 0 ∧
    (walletGET (some "key") (some "0xab") none none (Except.ok []) =
       ⟨200, Except.ok ⟨"0xab", jsOr none "ethereum", [], []⟩, [], true,
         [walletCacheUrl "0xab" (jsOr none "ethereum")]⟩ ∧
     (∀ (cached : Option WalletData) (up : Except String (List Row)),
       (walletGET (some "key") (some "0xab") none cached up).putCalls ≠ [] →
       cached = none ∧ ∃ r rs, up = Except.ok (r :: rs)) ∧
     (∀ (r : Row) (rs : List Row),
       (walletGET (some "key") (some "0xab") none none (Except.ok (r :: rs))).putCalls ≠ [])) :=
  ⟨by decide, wallet_write_iff_rows "key" "0xab" (by decide) none⟩

/-! ## C8: the prefetch wallet job leaves the wallet route's cache key alone -/

theorem string_data_append (s t : String) : (s ++ t).data = s.data ++ t.data := rfl

theorem prefetchWalletUrl_ne_flows (ps : String × String) :
    prefetchWalletUrl ≠ flowsCacheUrl ps := by
  intro hEq
  have hd := congrArg String.data hEq
  simp only [flowsCacheUrl, string_data_append] at hd
  rw [List.append_assoc, List.append_assoc] at hd
  have h28 := congrArg (List.take 28) hd
  rw [List.take_append_eq_append_take] at h28
  have hlen : ("https://cache.internal/api/flows?start_date=" : String).data.length = 44 := by
    decide
  rw [hlen] at h28
  norm_num at h28
  exact absurd h28 (by decide)

theorem prefetchWalletUrl_ne_bridges (ps : String × String) :
    prefetchWalletUrl ≠ bridgesCacheUrl ps := by
  intro hEq
  have hd := congrArg String.data hEq
  simp only [bridgesCacheUrl, string_data_append] at hd
  rw [List.append_assoc, List.append_assoc] at hd
  have h28 := congrArg (List.take 28) hd
  rw [List.take_append_eq_append_take] at h28
  have hlen : ("https://cache.internal/api/bridges?start_date=" : String).data.length = 46 := by
    decide
  rw [hlen] at h28
  norm_num at h28
  exact absurd h28 (by decide)

/-- C8: the prefetch job's wallet branch performs no edge-cache write — after
the prefetch completes (whatever each job's hit/success/failure outcome), the
edge-cache value at the wallet key is exactly what it was before (the flows
and bridges writes land on distinct keys), and that key is precisely the key
the wallet route's read path checks for the default wallet. -/
theorem prefetch_wallet_no_write (α : Type) (apiKey : Option String) (now : Int)
    (cache : List (String × α)) (fUp bUp wUp : Except String α) :
    aget (prefetchGET apiKey now cache fUp bUp wUp).cache prefetchWalletUrl =
      aget cache prefetchWalletUrl ∧
    walletCacheUrl DEFAULT_WALLET "ethereum" = prefetchWalletUrl := by
  refine ⟨?_, by decide⟩
  cases apiKey with
  | none => rfl
  | some key =>
    simp only [prefetchGET]
    repeat' split
    all_goals simp only [aget_aset_ne _ _ _ _ (prefetchWalletUrl_ne_flows _),
      aget_aset_ne _ _ _ _ (prefetchWalletUrl_ne_bridges _)]
